import Mathlib

set_option linter.unusedSectionVars false

/-!
Verification development for the grid-pooling core of
`trajnetbaselines/lstm/pooling.py`.

The source computes, for each agent of a scene, a fixed-size grid
descriptor of its neighbourhood.  Two engines exist:

* `FastPooling` (batched): one broadcasted pass over all agents;
  no front alignment, no blur, no missing-value masking.
* `Pooling` (per-agent): one agent at a time; supports front
  alignment, blur and NaN-masked neighbours.

Positions are modelled exactly over an ordered field `K` (instantiated
at `ℚ` for executable, decidable statements; the front-rotation path,
which uses trigonometry, is modelled over `ℝ`).  A possibly-missing
position (NaN sentinel in the source) is `Option (K × K)`, `none`
standing for the NaN sentinel.  Tensors become lists; the scatter
target becomes a function `ℕ → List K` updated in neighbour order, so
that the assignment-scatter of the source (last write wins on
duplicated indices) is modelled deterministically.
-/

namespace TrajNet

/-- The three neighbour-feature variants (`type_` in the source). -/
inductive Variant where
  | occupancy
  | directional
  | social
deriving DecidableEq, Repr

/-- Immutable construction-time configuration common to both engines
(`__init__` keeps exactly these fields; `out_dim` and the embedding
weights stay outside the descriptor computation). -/
structure Config where
  cell_side : ℚ
  n : ℕ
  hidden_dim : ℕ
  pool_size : ℕ
  blur_size : ℕ
  front : Bool
  type_ : Variant
deriving DecidableEq, Repr

/-- Feature width per neighbour: 1, 2 or `hidden_dim`
(source: `pooling_dim` computed in both constructors). -/
def Config.pooling_dim (cfg : Config) : ℕ :=
  match cfg.type_ with
  | .occupancy => 1
  | .directional => 2
  | .social => cfg.hidden_dim

/-- Side length of the sub-cell grid, `n * pool_size`. -/
def Config.s (cfg : Config) : ℕ := cfg.n * cfg.pool_size

section Geometry

variable {K : Type*} [LinearOrderedField K] [FloorRing K]

/-- Per-axis sub-cell coordinate before truncation
(source: `o / (cell_side / pool_size) + n * pool_size / 2`,
lines 176 and 329). -/
def subCell (cfg : Config) (o : K) : K :=
  o / ((cfg.cell_side : K) / (cfg.pool_size : K)) + (cfg.n * cfg.pool_size : K) / 2

/-- Range test on the real-valued coordinates, before truncation
(source: `(oij < 0) + (oij >= n * pool_size)` summed over the two
axes must be zero, lines 178-179 and 344-345). -/
def inRangePre (cfg : Config) (o : K × K) : Prop :=
  0 ≤ subCell cfg o.1 ∧ subCell cfg o.1 < (cfg.s : K) ∧
    0 ≤ subCell cfg o.2 ∧ subCell cfg o.2 < (cfg.s : K)

instance (cfg : Config) (o : K × K) : Decidable (inRangePre cfg o) := by
  unfold inRangePre; infer_instance

/-- Integer sub-cell pair.  The source truncates with `.long()`, but it
only ever truncates values that are nonnegative (in-range values, or
exact zeros written over out-of-range rows), where truncation and floor
agree, so the floor is the faithful translation. -/
def cellPair (cfg : Config) (o : K × K) : ℤ × ℤ :=
  (⌊subCell cfg o.1⌋, ⌊subCell cfg o.2⌋)

/-- Linear cell index `cell_x * (n * pool_size) + cell_y`
(source lines 186 and 350). -/
def linIdx (cfg : Config) (c : ℤ × ℤ) : ℕ :=
  c.1.toNat * cfg.s + c.2.toNat

end Geometry

section Pipeline

variable {K : Type*} [LinearOrderedField K] [FloorRing K]

/-- Scatter assignment into a dense cell array
(source: `occ[oi] = other_values`, lines 191 and 360).  Writes happen
in neighbour order; a later write to the same cell overwrites an
earlier one, which models the last-write semantics of the source
assignment scatter. -/
def scatter (d : ℕ) (cells : List (ℕ × List K)) : ℕ → List K :=
  cells.foldl (fun g cv => Function.update g cv.1 cv.2) fun _ => List.replicate d 0

/-- Zero-padded blur window average, kernel `b`, stride 1, padding
`b / 2`, dividing by the full kernel area
(source: `torch.nn.functional.avg_pool2d(occ_2d, blur_size, 1,
int(blur_size / 2), count_include_pad=True)`, lines 366-367). -/
def blurAt (cfg : Config) (f : ℕ → ℕ → K) (b : ℕ) (i j : ℕ) : K :=
  (((List.range b).map fun u =>
    ((List.range b).map fun v =>
      let x : ℤ := (i : ℤ) + u - (b / 2 : ℕ)
      let y : ℤ := (j : ℤ) + v - (b / 2 : ℕ)
      if 0 ≤ x ∧ x < (cfg.s : ℤ) ∧ 0 ≤ y ∧ y < (cfg.s : ℤ) then
        f x.toNat y.toNat else 0).sum).sum) / ((b : K) ^ 2)

/-- Sum of one `p × p` pooling block (source:
`torch.nn.functional.lp_pool2d(occ_blurred, 1, pool_size)`, an
L1 power-pool, i.e. the plain block sum, lines 198 and 371). -/
def blockSum (p : ℕ) (f : ℕ → ℕ → K) (a b : ℕ) : K :=
  ((List.range p).map fun u =>
    ((List.range p).map fun v => f (a * p + u) (b * p + v)).sum).sum

/-- Channel-major flattening of the pooled grid (source: transpose to
channel-first, 2-d view, pool, then `.view(-1)`). -/
def flattenDesc (d m : ℕ) (pooled : ℕ → ℕ → ℕ → K) : List K :=
  (List.range d).flatMap fun c =>
    (List.range m).flatMap fun a =>
      (List.range m).map fun b => pooled c a b

/-- Common tail of both engines: scatter the per-neighbour cell writes,
optionally blur (blur width `blurW`; `FastPooling` always passes 0,
`Pooling` passes its `blur_size`), block-sum pool and flatten. -/
def occTail (cfg : Config) (blurW : ℕ) (cells : List (ℕ × List K)) : List K :=
  let g := scatter cfg.pooling_dim cells
  let base : ℕ → ℕ → ℕ → K := fun c i j => (g (i * cfg.s + j)).getD c 0
  let H : ℕ := if blurW = 0 then cfg.s else cfg.s + 2 * (blurW / 2) + 1 - blurW
  let gB : ℕ → ℕ → ℕ → K :=
    if blurW = 0 then base else fun c i j => blurAt cfg (base c) blurW i j
  let m : ℕ := (H - cfg.pool_size) / cfg.pool_size + 1
  flattenDesc cfg.pooling_dim m fun c a b => blockSum cfg.pool_size (gB c) a b

/-- All-zero descriptor of the normal length
(source: `torch.zeros(self.n * self.n * self.pooling_dim)`). -/
def zerosD (cfg : Config) : List K :=
  List.replicate (cfg.n * cfg.n * cfg.pooling_dim) 0

end Pipeline

namespace Pooling

variable {K : Type*} [LinearOrderedField K] [FloorRing K]

/-- Per-neighbour cell writes of the per-agent engine, non-front mode:
relative offset, range filter (out-of-range neighbours are dropped:
`oij = oij[range_mask]`, `other_values = other_values[range_mask]`,
lines 346-347), then integer cell index. -/
def cellsOf (cfg : Config) (p : K × K) (pairs : List ((K × K) × List K)) :
    List (ℕ × List K) :=
  (((pairs.map fun qv => ((qv.1.1 - p.1, qv.1.2 - p.2), qv.2)).filter
      fun ov => decide (inRangePre cfg ov.1)).map
    fun ov => (linIdx cfg (cellPair cfg ov.1), ov.2))

/-- Continuation of the non-front branch after NaN masking: empty-check
of the masked neighbour list, range filter, empty-check of the in-range
list (`if oij.size(0) == 0`, line 348), then scatter, blur, pool. -/
def occCore (cfg : Config) (p : K × K) (pairs : List ((K × K) × List K)) :
    List K :=
  if pairs = [] then zerosD cfg else
  let cells := cellsOf cfg p pairs
  if cells = [] then zerosD cfg else
  occTail cfg cfg.blur_size cells

/-- Per-agent occupancy, non-front branch of `Pooling.occupancy`
(source lines 311-374 with `self.front` false).

`xy = none` models a NaN ego (`xy[0] != xy[0]`); `other_xy = none`
models the Python `None` argument; a `none` entry inside `other_xy`
models a NaN-masked neighbour (`mask = torch.isnan(other_xy[:, 0]) == 0`).
The default feature is a width-1 column of ones
(`torch.ones(other_xy.size(0), 1)`), built before masking. -/
def occupancy (cfg : Config) (xy : Option (K × K))
    (other_xy : Option (List (Option (K × K))))
    (other_values : Option (List (List K))) : List K :=
  match xy, other_xy with
  | none, _ => zerosD cfg
  | _, none => zerosD cfg
  | some p, some oxys =>
    if oxys = [] then zerosD cfg else
    let vals := other_values.getD (List.replicate oxys.length [1])
    occCore cfg p ((oxys.zip vals).filterMap fun qv => qv.1.map fun q => (q, qv.2))

/-- Relative-velocity feature row for agent `i`
(source: `(obs2 - obs1)[one_cold(i, n)] - (obs2 - obs1)[i]`; the same
values arise in `FastPooling` as `unfolded - vel.unsqueeze(1)` with the
diagonal removed). -/
def velRow (obs1 obs2 : List (K × K)) (i : ℕ) : List (List K) :=
  let vel := List.zipWith (fun b a => (b.1 - a.1, b.2 - a.2)) obs2 obs1
  let vi := vel.getD i (0, 0)
  (vel.eraseIdx i).map fun v => [v.1 - vi.1, v.2 - vi.2]

/-- Per-agent engine, occupancy variant over a whole scene
(source `Pooling.occupancies`: one `occupancy` call per agent, the
agent itself removed by `one_cold`). -/
def occupancies (cfg : Config) (obs : List (K × K)) : List (List K) :=
  (List.range obs.length).map fun i =>
    occupancy cfg (some (obs.getD i (0, 0))) (some ((obs.eraseIdx i).map some)) none

/-- Per-agent engine, directional variant (source `Pooling.directional`). -/
def directional (cfg : Config) (obs1 obs2 : List (K × K)) : List (List K) :=
  if obs2.length = 1 then
    [occupancy cfg (some (obs2.getD 0 (0, 0))) none none]
  else
    (List.range obs2.length).map fun i =>
      occupancy cfg (some (obs2.getD i (0, 0)))
        (some ((obs2.eraseIdx i).map some)) (some (velRow obs1 obs2 i))

/-- Per-agent engine, social variant (source `Pooling.social`). -/
def social (cfg : Config) (hidden : List (List K)) (obs : List (K × K)) :
    List (List K) :=
  (List.range obs.length).map fun i =>
    occupancy cfg (some (obs.getD i (0, 0)))
      (some ((obs.eraseIdx i).map some)) (some (hidden.eraseIdx i))

end Pooling

namespace FastPooling

variable {K : Type*} [LinearOrderedField K] [FloorRing K]

/-- Relative-offset rows of the batched engine: row `i` lists
`obs[j] - obs[i]` for `j ≠ i` in index order (source: broadcasted
subtraction with the diagonal removed, lines 167-171). -/
def relRows (obs : List (K × K)) : List (List (K × K)) :=
  (List.range obs.length).map fun i =>
    let p := obs.getD i (0, 0)
    (obs.eraseIdx i).map fun q => (q.1 - p.1, q.2 - p.2)

/-- Per-neighbour cell writes of the batched engine.  Out-of-range
neighbours are NOT dropped: their coordinates and their feature row are
zeroed in place (`oij[~range_mask] = 0`, `other_values[~range_mask] = 0`,
lines 182-183), so they still produce a write of a zero row at linear
cell 0. -/
def cellsRow (cfg : Config) (offs : List (K × K)) (vals : List (List K)) :
    List (ℕ × List K) :=
  (offs.zip vals).map fun ov =>
    if inRangePre cfg ov.1 then (linIdx cfg (cellPair cfg ov.1), ov.2)
    else (0, List.replicate ov.2.length 0)

/-- One descriptor row of the batched engine (no blur is ever applied:
`occ_blurred = occ_2d`, line 196). -/
def occRow (cfg : Config) (offs : List (K × K)) (vals : List (List K)) : List K :=
  occTail cfg 0 (cellsRow cfg offs vals)

/-- Batched `FastPooling.occupancy` (source lines 160-201).  The default
feature rows are all-ones of width `pooling_dim`
(`torch.ones(n, n-1, self.pooling_dim)`, line 174). -/
def occupancy (cfg : Config) (obs : List (K × K))
    (other_values : Option (List (List (List K)))) : List (List K) :=
  if obs.length = 1 then [zerosD cfg] else
  let rows := relRows obs
  let vals := other_values.getD
    (List.replicate obs.length
      (List.replicate (obs.length - 1) (List.replicate cfg.pooling_dim 1)))
  (List.range obs.length).map fun i => occRow cfg (rows.getD i []) (vals.getD i [])

/-- Batched engine, occupancy variant (source `FastPooling.occupancies`). -/
def occupancies (cfg : Config) (obs : List (K × K)) : List (List K) :=
  occupancy cfg obs none

/-- Batched engine, directional variant (source `FastPooling.directional`). -/
def directional (cfg : Config) (obs1 obs2 : List (K × K)) : List (List K) :=
  if obs2.length = 1 then occupancy cfg obs2 none else
  occupancy cfg obs2
    (some ((List.range obs2.length).map fun i => Pooling.velRow obs1 obs2 i))

/-- Batched engine, social variant (source `FastPooling.social`): row `i`
holds the hidden-state vectors of all other agents in index order. -/
def social (cfg : Config) (hidden : List (List K)) (obs : List (K × K)) :
    List (List K) :=
  if obs.length = 1 then occupancy cfg obs none else
  occupancy cfg obs
    (some ((List.range obs.length).map fun i => hidden.eraseIdx i))

/-- Batched `FastPooling.forward` (source lines 115-123): dispatch on the
variant, then apply the learnable embedding row-wise.  The embedding is
an external black box, passed as `emb`. -/
def forward (cfg : Config) (emb : List K → List K) (hidden : List (List K))
    (obs1 obs2 : List (K × K)) : List (List K) :=
  match cfg.type_ with
  | .occupancy => (occupancies cfg obs2).map emb
  | .directional => (directional cfg obs1 obs2).map emb
  | .social => (social cfg hidden obs2).map emb

end FastPooling

section Front

variable {K : Type*} [LinearOrderedField K] [FloorRing K]

/-- Quadrant-aware arctangent, the translation of `np.arctan2(y, x)`
used at line 335 of the source. -/
noncomputable def arctan2 (y x : ℝ) : ℝ :=
  if 0 < x then Real.arctan (y / x)
  else if x < 0 ∧ 0 ≤ y then Real.arctan (y / x) + Real.pi
  else if x < 0 ∧ y < 0 then Real.arctan (y / x) - Real.pi
  else if x = 0 ∧ 0 < y then Real.pi / 2
  else if x = 0 ∧ y < 0 then -(Real.pi / 2)
  else 0

/-- Rotation data of the front branch (source lines 334-339):
`theta = pi/2 - arctan2(dy, dx)` for the ego displacement
`(dy, dx) = (xy[1] - past_xy[1], xy[0] - past_xy[0])`; returns
`(cos theta, sin theta)`. -/
noncomputable def frontCT (xy past : ℝ × ℝ) : ℝ × ℝ :=
  let theta := Real.pi / 2 - arctan2 (xy.2 - past.2) (xy.1 - past.1)
  (Real.cos theta, Real.sin theta)

/-- Row-vector rotation, the translation of
`torch.einsum('tc,ci->ti', relative_pos, r)` with
`r = [[ct, st], [-st, ct]]` (source lines 339-340). -/
def rotPair (ct st : K) (v : K × K) : K × K :=
  (v.1 * ct - v.2 * st, v.1 * st + v.2 * ct)

/-- Second-axis sub-cell coordinate in front mode: the source adds
`torch.Tensor([n * pool_size / 2, 0])`, so the second axis gets NO
half-grid shift (line 342). -/
def subCellY (cfg : Config) (o : K) : K :=
  o / ((cfg.cell_side : K) / (cfg.pool_size : K))

/-- Front-mode range test on the shifted coordinates (source line 344
applied to the front-mode `oij`). -/
def inRangePreF (cfg : Config) (o : K × K) : Prop :=
  0 ≤ subCell cfg o.1 ∧ subCell cfg o.1 < (cfg.s : K) ∧
    0 ≤ subCellY cfg o.2 ∧ subCellY cfg o.2 < (cfg.s : K)

instance (cfg : Config) (o : K × K) : Decidable (inRangePreF cfg o) := by
  unfold inRangePreF; infer_instance

/-- Front-mode integer sub-cell pair: half-grid shift on the first axis
only. -/
def frontCellPair (cfg : Config) (o : K × K) : ℤ × ℤ :=
  (⌊subCell cfg o.1⌋, ⌊subCellY cfg o.2⌋)

end Front

namespace Pooling

variable {K : Type*} [LinearOrderedField K] [FloorRing K]

/-- Per-neighbour cell writes of the per-agent engine, front mode:
offsets are rotated by `(ct, st)`; the feature rows pass through
untouched (the source rotates `relative_pos` only, never
`other_values`). -/
def cellsOfFront (cfg : Config) (ct st : K) (p : K × K)
    (pairs : List ((K × K) × List K)) : List (ℕ × List K) :=
  (((pairs.map fun qv => (rotPair ct st (qv.1.1 - p.1, qv.1.2 - p.2), qv.2)).filter
      fun ov => decide (inRangePreF cfg ov.1)).map
    fun ov => (linIdx cfg (frontCellPair cfg ov.1), ov.2))

/-- Shared continuation of the front branch after masking. -/
def occCoreFront (cfg : Config) (ct st : K) (p : K × K)
    (pairs : List ((K × K) × List K)) : List K :=
  if pairs = [] then zerosD cfg else
  let cells := cellsOfFront cfg ct st p pairs
  if cells = [] then zerosD cfg else
  occTail cfg cfg.blur_size cells

/-- Per-agent `Pooling.occupancy`, front branch (source lines 311-374
with `self.front` true), over the reals because of the trigonometry. -/
noncomputable def occupancyFront (cfg : Config) (xy : Option (ℝ × ℝ))
    (other_xy : Option (List (Option (ℝ × ℝ))))
    (other_values : Option (List (List ℝ))) (past : ℝ × ℝ) : List ℝ :=
  match xy, other_xy with
  | none, _ => zerosD cfg
  | _, none => zerosD cfg
  | some p, some oxys =>
    if oxys = [] then zerosD cfg else
    let vals := other_values.getD (List.replicate oxys.length [1])
    let pairs := (oxys.zip vals).filterMap fun qv => qv.1.map fun q => (q, qv.2)
    if pairs = [] then zerosD cfg else
    occCoreFront cfg (frontCT p past).1 (frontCT p past).2 p pairs

/-- Per-agent engine, directional variant in front mode
(source `Pooling.front_directional`): feature row `i` is the raw
relative-velocity list; the previous ego position `obs1[i]` supplies the
rotation. -/
noncomputable def front_directional (cfg : Config) (obs1 obs2 : List (ℝ × ℝ)) :
    List (List ℝ) :=
  if obs2.length = 1 then
    [occupancy (K := ℝ) cfg (some (obs2.getD 0 (0, 0))) none none]
  else
    (List.range obs2.length).map fun i =>
      occupancyFront cfg (some (obs2.getD i (0, 0)))
        (some ((obs2.eraseIdx i).map some)) (some (velRow obs1 obs2 i))
        (obs1.getD i (0, 0))

end Pooling

section SpecModels

variable {K : Type*} [LinearOrderedField K] [FloorRing K]

/-- Sub-cell pair as the specification words it:
`floor(o / (cell_side / pool_size) + n * pool_size / 2)` on each axis. -/
def specCellOf (cfg : Config) (o : K × K) : ℤ × ℤ :=
  (⌊o.1 / ((cfg.cell_side : K) / (cfg.pool_size : K)) + (cfg.n * cfg.pool_size : K) / 2⌋,
   ⌊o.2 / ((cfg.cell_side : K) / (cfg.pool_size : K)) + (cfg.n * cfg.pool_size : K) / 2⌋)

/-- In-range as the specification words it: both integer coordinates in
the half-open interval `[0, n * pool_size)`. -/
def specInR (cfg : Config) (c : ℤ × ℤ) : Prop :=
  0 ≤ c.1 ∧ c.1 < (cfg.s : ℤ) ∧ 0 ≤ c.2 ∧ c.2 < (cfg.s : ℤ)

instance (cfg : Config) (c : ℤ × ℤ) : Decidable (specInR cfg c) := by
  unfold specInR; infer_instance

/-- Linear cell index as the specification words it:
`cell_x * (n * pool_size) + cell_y` over the integers. -/
def specLin (cfg : Config) (c : ℤ × ℤ) : ℤ :=
  c.1 * (cfg.s : ℤ) + c.2

/-- Rotation matrix as the specification words it, built from
`theta = pi/2 - atan2(dy, dx)`; offsets act on it as row vectors. -/
noncomputable def rotMatrixOf (xy past : ℝ × ℝ) : Matrix (Fin 2) (Fin 2) ℝ :=
  let theta := Real.pi / 2 - arctan2 (xy.2 - past.2) (xy.1 - past.1)
  !![Real.cos theta, Real.sin theta; -Real.sin theta, Real.cos theta]

/-- Front-mode cell writes as the amended specification words them: each
offset row-vector is multiplied by the rotation matrix, binned with the
half-grid shift on the first axis only, kept iff both integer
coordinates lie in `[0, n * pool_size)`, and paired with the UNROTATED
feature row. -/
noncomputable def frontCellsSpec (cfg : Config) (R : Matrix (Fin 2) (Fin 2) ℝ)
    (p : ℝ × ℝ) (pairs : List ((ℝ × ℝ) × List ℝ)) : List (ℕ × List ℝ) :=
  pairs.filterMap fun qv =>
    let w := Matrix.vecMul ![qv.1.1 - p.1, qv.1.2 - p.2] R
    let cx : ℤ := ⌊w 0 / ((cfg.cell_side : ℝ) / (cfg.pool_size : ℝ)) +
      (cfg.n * cfg.pool_size : ℝ) / 2⌋
    let cy : ℤ := ⌊w 1 / ((cfg.cell_side : ℝ) / (cfg.pool_size : ℝ))⌋
    if 0 ≤ cx ∧ cx < (cfg.s : ℤ) ∧ 0 ≤ cy ∧ cy < (cfg.s : ℤ) then
      some (cx.toNat * cfg.s + cy.toNat, qv.2)
    else none

/-- Specification-shaped front occupancy: same masking head as the
engine, but the geometry written through `rotMatrixOf`/`frontCellsSpec`. -/
noncomputable def occupancyFrontSpec (cfg : Config) (xy : Option (ℝ × ℝ))
    (other_xy : Option (List (Option (ℝ × ℝ))))
    (other_values : Option (List (List ℝ))) (past : ℝ × ℝ) : List ℝ :=
  match xy, other_xy with
  | none, _ => zerosD cfg
  | _, none => zerosD cfg
  | some p, some oxys =>
    if oxys = [] then zerosD cfg else
    let vals := other_values.getD (List.replicate oxys.length [1])
    let pairs := (oxys.zip vals).filterMap fun qv => qv.1.map fun q => (q, qv.2)
    if pairs = [] then zerosD cfg else
    let cells := frontCellsSpec cfg (rotMatrixOf p past) p pairs
    if cells = [] then zerosD cfg else
    occTail cfg cfg.blur_size cells

end SpecModels

/-- Construction-time state of either engine: exactly the attributes the
two identical constructors assign (`__init__`, lines 85-113 and
205-233). -/
structure EngineState where
  cell_side : ℚ
  n : ℕ
  type_ : Variant
  pool_size : ℕ
  blur_size : ℕ
  pooling_dim : ℕ
  front : Bool
  out_dim : ℕ
deriving DecidableEq, Repr

/-- Construction of the per-agent engine (`Pooling.__init__`).  The
source constructor only assigns attributes: it contains no validation
and no raise path, so the `Option` (where `none` would model an
exception escaping construction) is always `some`.  `hidden_dim` and
`out_dim` keep their documented defaults 128 and `hidden_dim` at call
sites that omit them. -/
def Pooling.init (cell_side : ℚ) (n hidden_dim : ℕ) (out_dim : Option ℕ)
    (type_ : Variant) (pool_size blur_size : ℕ) (front : Bool) :
    Option EngineState :=
  some ⟨cell_side, n, type_, pool_size, blur_size,
    (match type_ with
      | .occupancy => 1
      | .directional => 2
      | .social => hidden_dim),
    front, out_dim.getD hidden_dim⟩

/-- Construction of the batched engine (`FastPooling.__init__`), line
for line the same assignments as `Pooling.__init__`. -/
def FastPooling.init (cell_side : ℚ) (n hidden_dim : ℕ) (out_dim : Option ℕ)
    (type_ : Variant) (pool_size blur_size : ℕ) (front : Bool) :
    Option EngineState :=
  some ⟨cell_side, n, type_, pool_size, blur_size,
    (match type_ with
      | .occupancy => 1
      | .directional => 2
      | .social => hidden_dim),
    front, out_dim.getD hidden_dim⟩

section HelperLemmas

variable {K : Type*} [LinearOrderedField K] [FloorRing K]

lemma filterMap_zip_map_some (others : List (K × K)) (vals : List (List K)) :
    (((others.map some).zip vals).filterMap
        fun qv => qv.1.map fun q => (q, qv.2)) = others.zip vals := by
  induction others generalizing vals with
  | nil => simp
  | cons o os ih =>
    cases vals with
    | nil => simp
    | cons v vs => simp [ih]

lemma zerosD_length (cfg : Config) :
    (zerosD (K := K) cfg).length = cfg.n * cfg.n * cfg.pooling_dim := by
  simp [zerosD]

lemma filterMap_zip_set_none (others : List (Option (K × K)))
    (vals : List (List K)) (j : ℕ) (hj : j < others.length)
    (hlen : vals.length = others.length) :
    (((others.set j none).zip vals).filterMap fun qv => qv.1.map fun q => (q, qv.2))
      = (((others.eraseIdx j).zip (vals.eraseIdx j)).filterMap
          fun qv => qv.1.map fun q => (q, qv.2)) := by
  induction others generalizing vals j with
  | nil => simp at hj
  | cons o os ih =>
    cases vals with
    | nil => simp at hlen
    | cons v vs =>
      cases j with
      | zero => simp
      | succ j =>
        have hj2 : j < os.length := by simpa using hj
        have hlen2 : vs.length = os.length := by simpa using hlen
        simp only [List.set_cons_succ, List.eraseIdx_cons_succ, List.zip_cons_cons,
          List.filterMap_cons]
        rw [ih vs j hj2 hlen2]

lemma cellsOf_eq_cellsRow (cfg : Config) (p : K × K) (others : List (K × K))
    (vals : List (List K))
    (hin : ∀ q ∈ others, inRangePre cfg (q.1 - p.1, q.2 - p.2)) :
    Pooling.cellsOf cfg p (others.zip vals)
      = FastPooling.cellsRow cfg (others.map fun q => (q.1 - p.1, q.2 - p.2)) vals := by
  induction others generalizing vals with
  | nil => simp [Pooling.cellsOf, FastPooling.cellsRow]
  | cons o os ih =>
    cases vals with
    | nil => simp [Pooling.cellsOf, FastPooling.cellsRow]
    | cons v vs =>
      have ho : inRangePre cfg (o.1 - p.1, o.2 - p.2) := hin o (by simp)
      have ihs := ih vs fun q hq => hin q (by simp [hq])
      simp only [Pooling.cellsOf, FastPooling.cellsRow] at ihs ⊢
      simp [List.filter_cons, ho, if_pos ho, ihs]

lemma occ_row_eq (cfg : Config) (hb : cfg.blur_size = 0) (p : K × K)
    (others : List (K × K)) (vals : List (List K))
    (hne : others ≠ []) (hlen : vals.length = others.length)
    (hin : ∀ q ∈ others, inRangePre cfg (q.1 - p.1, q.2 - p.2)) :
    Pooling.occupancy cfg (some p) (some (others.map some)) (some vals)
      = FastPooling.occRow cfg (others.map fun q => (q.1 - p.1, q.2 - p.2)) vals := by
  have hne2 : others.map some ≠ [] := by simpa using hne
  have hzip : others.zip vals ≠ [] := by
    have : 0 < (others.zip vals).length := by
      rw [List.length_zip]
      rcases others with _ | ⟨a, as⟩
      · exact absurd rfl hne
      · cases vals with
        | nil => simp at hlen
        | cons b bs => simp
    exact List.ne_nil_of_length_pos this
  have hcells := cellsOf_eq_cellsRow cfg p others vals hin
  have hrowne : FastPooling.cellsRow cfg
      (others.map fun q => (q.1 - p.1, q.2 - p.2)) vals ≠ [] := by
    have : 0 < (FastPooling.cellsRow cfg
        (others.map fun q => (q.1 - p.1, q.2 - p.2)) vals).length := by
      unfold FastPooling.cellsRow
      rw [List.length_map, List.length_zip, List.length_map]
      rcases others with _ | ⟨a, as⟩
      · exact absurd rfl hne
      · cases vals with
        | nil => simp at hlen
        | cons b bs => simp
    exact List.ne_nil_of_length_pos this
  simp only [Pooling.occupancy, if_neg hne2, Option.getD_some, filterMap_zip_map_some]
  unfold Pooling.occCore FastPooling.occRow
  rw [if_neg hzip, hcells, if_neg hrowne, hb]

lemma getD_range_map {α : Type*} (k i : ℕ) (f : ℕ → α) (d : α) (hi : i < k) :
    ((List.range k).map f).getD i d = f i := by
  rw [List.getD_eq_getElem?_getD,
    List.getElem?_eq_getElem (by simpa using hi)]
  simp

lemma getD_replicate_lt {α : Type*} (k i : ℕ) (a d : α) (hi : i < k) :
    (List.replicate k a).getD i d = a := by
  rw [List.getD_eq_getElem?_getD,
    List.getElem?_eq_getElem (by simpa using hi)]
  simp

lemma occupancy_default_vals (cfg : Config) (xy : Option (K × K))
    (oxys : List (Option (K × K))) :
    Pooling.occupancy cfg xy (some oxys) none
      = Pooling.occupancy cfg xy (some oxys) (some (List.replicate oxys.length [1])) := by
  cases xy <;> rfl

lemma occupancies_engines_eq (cfg : Config) (hb : cfg.blur_size = 0)
    (hocc : cfg.type_ = .occupancy) (obs : List (K × K)) (hne : obs ≠ [])
    (hin : ∀ i, i < obs.length → ∀ q ∈ obs.eraseIdx i,
      inRangePre cfg (q.1 - (obs.getD i (0, 0)).1, q.2 - (obs.getD i (0, 0)).2)) :
    Pooling.occupancies cfg obs = FastPooling.occupancies cfg obs := by
  have hd : cfg.pooling_dim = 1 := by simp [Config.pooling_dim, hocc]
  by_cases h1 : obs.length = 1
  · rcases obs with _ | ⟨p, rest⟩
    · simp at h1
    · rcases rest with _ | ⟨q, rest⟩
      · simp [Pooling.occupancies, FastPooling.occupancies, FastPooling.occupancy,
          Pooling.occupancy, List.range_succ]
      · simp at h1
  · have hN : 2 ≤ obs.length := by
      rcases obs with _ | ⟨p, rest⟩
      · exact absurd rfl hne
      · rcases rest with _ | ⟨q, rest⟩
        · simp at h1
        · simp
    unfold Pooling.occupancies FastPooling.occupancies FastPooling.occupancy
    rw [if_neg h1]
    apply List.map_congr_left
    intro i hi
    have hiN : i < obs.length := List.mem_range.mp hi
    have herl : (obs.eraseIdx i).length = obs.length - 1 := by
      rw [List.length_eraseIdx, if_pos hiN]
    simp only [FastPooling.relRows, Option.getD_none]
    rw [getD_range_map _ _ _ _ hiN, getD_replicate_lt _ _ _ _ hiN]
    rw [occupancy_default_vals]
    rw [hd, List.replicate_one, List.length_map, herl]
    exact occ_row_eq cfg hb (obs.getD i (0, 0)) (obs.eraseIdx i) _
      (by rw [← List.length_pos_iff_ne_nil]; omega)
      (by simp [herl]) (hin i hiN)

lemma velRow_length (obs1 obs2 : List (K × K)) (i : ℕ)
    (h1 : obs1.length = obs2.length) (hi : i < obs2.length) :
    (Pooling.velRow obs1 obs2 i).length = obs2.length - 1 := by
  unfold Pooling.velRow
  simp [List.length_eraseIdx, h1, hi]

lemma directional_engines_eq (cfg : Config) (hb : cfg.blur_size = 0)
    (obs1 obs2 : List (K × K))
    (hne : obs2 ≠ []) (hlen1 : obs1.length = obs2.length)
    (hin : ∀ i, i < obs2.length → ∀ q ∈ obs2.eraseIdx i,
      inRangePre cfg (q.1 - (obs2.getD i (0, 0)).1, q.2 - (obs2.getD i (0, 0)).2)) :
    Pooling.directional cfg obs1 obs2 = FastPooling.directional cfg obs1 obs2 := by
  by_cases h1 : obs2.length = 1
  · unfold Pooling.directional FastPooling.directional FastPooling.occupancy
    rw [if_pos h1, if_pos h1, if_pos h1]
    rfl
  · unfold Pooling.directional FastPooling.directional FastPooling.occupancy
    rw [if_neg h1, if_neg h1, if_neg h1]
    apply List.map_congr_left
    intro i hi
    have hiN : i < obs2.length := List.mem_range.mp hi
    have herl : (obs2.eraseIdx i).length = obs2.length - 1 := by
      rw [List.length_eraseIdx, if_pos hiN]
    simp only [FastPooling.relRows, Option.getD_some]
    rw [getD_range_map _ _ _ _ hiN, getD_range_map _ _ _ _ hiN]
    exact occ_row_eq cfg hb (obs2.getD i (0, 0)) (obs2.eraseIdx i) _
      (by rw [← List.length_pos_iff_ne_nil]
          rcases obs2 with _ | ⟨p, rest⟩
          · exact absurd rfl hne
          · rcases rest with _ | ⟨q, rest⟩
            · simp at h1
            · simp at herl ⊢; omega)
      (by rw [velRow_length _ _ _ hlen1 hiN, herl]) (hin i hiN)

lemma social_engines_eq (cfg : Config) (hb : cfg.blur_size = 0)
    (hidden : List (List K)) (obs : List (K × K))
    (hne : obs ≠ []) (hlenh : hidden.length = obs.length)
    (hin : ∀ i, i < obs.length → ∀ q ∈ obs.eraseIdx i,
      inRangePre cfg (q.1 - (obs.getD i (0, 0)).1, q.2 - (obs.getD i (0, 0)).2)) :
    Pooling.social cfg hidden obs = FastPooling.social cfg hidden obs := by
  by_cases h1 : obs.length = 1
  · rcases obs with _ | ⟨p, rest⟩
    · simp at h1
    · rcases rest with _ | ⟨q, rest⟩
      · unfold Pooling.social FastPooling.social FastPooling.occupancy
        simp [Pooling.occupancy, List.range_succ]
      · simp at h1
  · unfold Pooling.social FastPooling.social FastPooling.occupancy
    rw [if_neg h1, if_neg h1]
    apply List.map_congr_left
    intro i hi
    have hiN : i < obs.length := List.mem_range.mp hi
    have herl : (obs.eraseIdx i).length = obs.length - 1 := by
      rw [List.length_eraseIdx, if_pos hiN]
    simp only [FastPooling.relRows, Option.getD_some]
    rw [getD_range_map _ _ _ _ hiN, getD_range_map _ _ _ _ hiN]
    exact occ_row_eq cfg hb (obs.getD i (0, 0)) (obs.eraseIdx i) _
      (by rw [← List.length_pos_iff_ne_nil]
          have : obs.length ≠ 0 := by
            simpa [← List.length_pos_iff_ne_nil] using
              List.length_pos_of_ne_nil hne
          omega)
      (by rw [List.length_eraseIdx, if_pos (hlenh ▸ hiN), hlenh, herl]) (hin i hiN)

lemma length_flatMap_const {α β : Type*} (l : List α) (g : α → List β) (c : ℕ)
    (h : ∀ a ∈ l, (g a).length = c) : (l.flatMap g).length = l.length * c := by
  induction l with
  | nil => simp
  | cons x xs ih =>
    rw [List.flatMap_cons, List.length_append, h x (by simp),
      ih fun a ha => h a (by simp [ha]), List.length_cons]
    ring

lemma flattenDesc_length (d m : ℕ) (f : ℕ → ℕ → ℕ → K) :
    (flattenDesc d m f).length = d * (m * m) := by
  unfold flattenDesc
  rw [length_flatMap_const _ _ (m * m) fun c _ => ?_, List.length_range]
  rw [length_flatMap_const _ _ m fun a _ => by simp, List.length_range]

lemma bins_eq (n p b : ℕ) (hn : 0 < n) (hp : 0 < p)
    (hb : b = 0 ∨ b % 2 = 1 ∨ 2 ≤ p) :
    ((if b = 0 then n * p else n * p + 2 * (b / 2) + 1 - b) - p) / p + 1 = n := by
  have hple : p ≤ n * p := Nat.le_mul_of_pos_left p hn
  have base : (n * p - p) / p + 1 = n := by
    have h1 : n * p - p = (n - 1) * p := by rw [Nat.sub_one_mul]
    rw [h1, Nat.mul_div_cancel _ hp]
    omega
  by_cases hb0 : b = 0
  · simpa [hb0] using base
  · rw [if_neg hb0]
    by_cases hodd : b % 2 = 1
    · have h2 : n * p + 2 * (b / 2) + 1 - b = n * p := by omega
      rw [h2]
      exact base
    · have hp2 : 2 ≤ p := by
        rcases hb with h | h | h
        · exact absurd h hb0
        · exact absurd h hodd
        · exact h
      have h2 : n * p + 2 * (b / 2) + 1 - b = n * p + 1 := by omega
      have h3 : n * p + 1 - p = 1 + p * (n - 1) := by
        have h4 : p * (n - 1) = n * p - p := by
          rw [Nat.mul_comm, Nat.sub_one_mul]
        omega
      rw [h2, h3, Nat.add_mul_div_left _ _ hp, Nat.div_eq_of_lt (by omega)]
      omega

lemma occTail_length (cfg : Config) (blurW : ℕ) (cells : List (ℕ × List K))
    (hn : 0 < cfg.n) (hp : 0 < cfg.pool_size)
    (hb : blurW = 0 ∨ blurW % 2 = 1 ∨ 2 ≤ cfg.pool_size) :
    (occTail cfg blurW cells).length = cfg.n * cfg.n * cfg.pooling_dim := by
  have hm : (((if blurW = 0 then cfg.s else cfg.s + 2 * (blurW / 2) + 1 - blurW)
      - cfg.pool_size) / cfg.pool_size + 1) = cfg.n := by
    simpa [Config.s] using bins_eq cfg.n cfg.pool_size blurW hn hp hb
  simp only [occTail]
  rw [flattenDesc_length, hm]
  ring

lemma occCore_length (cfg : Config) (hn : 0 < cfg.n) (hp : 0 < cfg.pool_size)
    (hb : cfg.blur_size = 0 ∨ cfg.blur_size % 2 = 1 ∨ 2 ≤ cfg.pool_size)
    (p : K × K) (pairs : List ((K × K) × List K)) :
    (Pooling.occCore cfg p pairs).length = cfg.n * cfg.n * cfg.pooling_dim := by
  simp only [Pooling.occCore]
  split_ifs with h1 h2
  · exact zerosD_length cfg
  · exact zerosD_length cfg
  · exact occTail_length cfg _ _ hn hp hb

lemma foldl_update_preserve (c : ℕ) (v : List K) :
    ∀ (l : List (ℕ × List K)) (g : ℕ → List K), (∀ e ∈ l, e.1 ≠ c) → g c = v →
      (l.foldl (fun g cv => Function.update g cv.1 cv.2) g) c = v := by
  intro l
  induction l with
  | nil => intro g _ hg; exact hg
  | cons e es ih =>
    intro g h hg
    rw [List.foldl_cons]
    refine ih _ (fun x hx => h x (by simp [hx])) ?_
    rw [Function.update_noteq (fun hc => (h e (by simp)) hc.symm)]
    exact hg

lemma scatter_last_write (d : ℕ) (l1 l2 : List (ℕ × List K)) (c : ℕ) (v : List K)
    (h : ∀ e ∈ l2, e.1 ≠ c) : scatter d (l1 ++ (c, v) :: l2) c = v := by
  unfold scatter
  rw [List.foldl_append, List.foldl_cons]
  exact foldl_update_preserve c v l2 _ h (Function.update_same _ _ _)

lemma getD_eq_getElem_of_lt {α : Type*} (l : List α) (i : ℕ) (d : α)
    (h : i < l.length) : l.getD i d = l[i] := by
  rw [List.getD_eq_getElem?_getD, List.getElem?_eq_getElem h]
  rfl

lemma occCore_cells_nil (cfg : Config) (p : K × K)
    (pr : List ((K × K) × List K))
    (hpr : Pooling.cellsOf cfg p pr = []) :
    Pooling.occCore cfg p pr = zerosD cfg := by
  unfold Pooling.occCore
  rw [hpr]
  by_cases h1 : pr = []
  · rw [if_pos h1]
  · rw [if_neg h1]
    rfl

lemma eraseIdx_replicate {α : Type*} (k j : ℕ) (a : α) (hj : j < k) :
    (List.replicate k a).eraseIdx j = List.replicate (k - 1) a := by
  induction k generalizing j with
  | zero => omega
  | succ k ih =>
    cases j with
    | zero => simp [List.replicate_succ]
    | succ j =>
      rw [List.replicate_succ, List.eraseIdx_cons_succ, ih j (by omega)]
      cases k with
      | zero => omega
      | succ k => simp [List.replicate_succ]

lemma floor_bounds_iff (cfg : Config) (x y : K) :
    (0 ≤ ⌊x⌋ ∧ ⌊x⌋ < (cfg.s : ℤ) ∧ 0 ≤ ⌊y⌋ ∧ ⌊y⌋ < (cfg.s : ℤ))
      ↔ (0 ≤ x ∧ x < (cfg.s : K) ∧ 0 ≤ y ∧ y < (cfg.s : K)) := by
  have h1 : ∀ z : K, ((0 : ℤ) ≤ ⌊z⌋ ↔ (0 : K) ≤ z) := by
    intro z
    rw [Int.le_floor]
    norm_num
  have h2 : ∀ z : K, (⌊z⌋ < (cfg.s : ℤ) ↔ z < (cfg.s : K)) := by
    intro z
    rw [Int.floor_lt]
    push_cast
    exact Iff.rfl
  rw [h1 x, h2 x, h1 y, h2 y]

lemma vecMul_rot_entries (ct st dx dy : ℝ) :
    Matrix.vecMul ![dx, dy] !![ct, st; -st, ct] 0 = dx * ct - dy * st
    ∧ Matrix.vecMul ![dx, dy] !![ct, st; -st, ct] 1 = dx * st + dy * ct := by
  constructor <;>
    simp [Matrix.vecMul, Matrix.dotProduct, Fin.sum_univ_two] <;> ring

lemma frontCells_spec_eq (cfg : Config) (xy past : ℝ × ℝ)
    (pairs : List ((ℝ × ℝ) × List ℝ)) :
    frontCellsSpec cfg (rotMatrixOf xy past) xy pairs
      = Pooling.cellsOfFront cfg (frontCT xy past).1 (frontCT xy past).2 xy pairs := by
  induction pairs with
  | nil => rfl
  | cons qv rest ih =>
    have hct : rotMatrixOf xy past
        = !![(frontCT xy past).1, (frontCT xy past).2;
             -(frontCT xy past).2, (frontCT xy past).1] := rfl
    set ct := (frontCT xy past).1 with hctdef
    set st := (frontCT xy past).2 with hstdef
    set o : ℝ × ℝ := rotPair ct st (qv.1.1 - xy.1, qv.1.2 - xy.2) with hodef
    have hw0 : Matrix.vecMul ![qv.1.1 - xy.1, qv.1.2 - xy.2] (rotMatrixOf xy past) 0
        = o.1 := by
      rw [hct]
      exact (vecMul_rot_entries ct st (qv.1.1 - xy.1) (qv.1.2 - xy.2)).1
    have hw1 : Matrix.vecMul ![qv.1.1 - xy.1, qv.1.2 - xy.2] (rotMatrixOf xy past) 1
        = o.2 := by
      rw [hct]
      exact (vecMul_rot_entries ct st (qv.1.1 - xy.1) (qv.1.2 - xy.2)).2
    have hcond : (0 ≤ ⌊o.1 / ((cfg.cell_side : ℝ) / (cfg.pool_size : ℝ)) +
          (cfg.n * cfg.pool_size : ℝ) / 2⌋ ∧
        ⌊o.1 / ((cfg.cell_side : ℝ) / (cfg.pool_size : ℝ)) +
          (cfg.n * cfg.pool_size : ℝ) / 2⌋ < (cfg.s : ℤ) ∧
        0 ≤ ⌊o.2 / ((cfg.cell_side : ℝ) / (cfg.pool_size : ℝ))⌋ ∧
        ⌊o.2 / ((cfg.cell_side : ℝ) / (cfg.pool_size : ℝ))⌋ < (cfg.s : ℤ))
        ↔ inRangePreF cfg o := by
      rw [floor_bounds_iff]
      exact Iff.rfl
    simp only [frontCellsSpec, List.filterMap_cons, hw0, hw1,
      Pooling.cellsOfFront, List.map_cons, List.filter_cons] at ih ⊢
    by_cases hio : inRangePreF cfg o
    · rw [if_pos (hcond.mpr hio), if_pos (decide_eq_true hio)]
      simp only [List.map_cons]
      rw [ih]
      rfl
    · rw [if_neg fun hc => hio (hcond.mp hc),
        if_neg (by simp [hio])]
      exact ih

end HelperLemmas

/-! ### Concrete configurations used in concrete statements -/

/-- Two-by-two grid: `cell_side = 1`, `n = 2`, `pool_size = 1`, no blur,
occupancy variant. -/
def cfgA : Config := ⟨1, 2, 128, 1, 0, false, Variant.occupancy⟩

/-- One-cell grid with odd blur 3: `cell_side = 2`, `n = 1`,
`pool_size = 1`, `blur_size = 3`, occupancy variant. -/
def cfgB : Config := ⟨2, 1, 128, 1, 3, false, Variant.occupancy⟩

/-- One-cell grid with even blur 2: `cell_side = 2`, `n = 1`,
`pool_size = 1`, `blur_size = 2`, occupancy variant. -/
def cfgC : Config := ⟨2, 1, 128, 1, 2, false, Variant.occupancy⟩

/-- Front-mode directional configuration: `cell_side = 2`, `n = 2`,
`pool_size = 1`, no blur. -/
def cfgF : Config := ⟨2, 2, 128, 1, 0, true, Variant.directional⟩

/-- Front-mode occupancy configuration: `cell_side = 1`, `n = 2`,
`pool_size = 1`, no blur. -/
def cfgG : Config := ⟨1, 2, 128, 1, 0, true, Variant.occupancy⟩

/-! ### Claim theorems -/

/-- C9 (counterexample): constructing either engine with negative
`cell_side`, zero `n`, zero `pool_size`, and the social variant with the
defaulted hidden width succeeds and yields a state; no configuration
error is raised, contradicting the claim that such construction raises. -/
theorem c9_counterexample :
    (Pooling.init (-1) 0 128 none Variant.social 0 0 false).isSome = true
    ∧ (FastPooling.init (-1) 0 128 none Variant.social 0 0 false).isSome = true :=
  ⟨rfl, rfl⟩

/-- C9 (amended): neither constructor validates anything: for every
argument combination, including non-positive `cell_side`/`n`/`pool_size`
and the social variant with the defaulted hidden width, construction
succeeds and returns the assigned state. -/
theorem c9_construction_never_fails (cell_side : ℚ) (n hidden_dim : ℕ)
    (out_dim : Option ℕ) (type_ : Variant) (pool_size blur_size : ℕ)
    (front : Bool) :
    (Pooling.init cell_side n hidden_dim out_dim type_
        pool_size blur_size front).isSome = true
    ∧ (FastPooling.init cell_side n hidden_dim out_dim type_
        pool_size blur_size front).isSome = true :=
  ⟨rfl, rfl⟩

/-- C10: the batched engine ignores `front` and `blur_size`: two
configurations agreeing on every other field produce identical
`forward` outputs for every embedding and every input. -/
theorem c10_forward_ignores_front_and_blur (cfg1 cfg2 : Config)
    (hcs : cfg1.cell_side = cfg2.cell_side) (hn : cfg1.n = cfg2.n)
    (hh : cfg1.hidden_dim = cfg2.hidden_dim)
    (hp : cfg1.pool_size = cfg2.pool_size) (ht : cfg1.type_ = cfg2.type_)
    (emb : List ℚ → List ℚ) (hidden : List (List ℚ))
    (obs1 obs2 : List (ℚ × ℚ)) :
    FastPooling.forward cfg1 emb hidden obs1 obs2
      = FastPooling.forward cfg2 emb hidden obs1 obs2 := by
  cases cfg1 with
  | mk cs1 n1 h1 p1 b1 f1 t1 =>
    cases cfg2 with
    | mk cs2 n2 h2 p2 b2 f2 t2 =>
      dsimp only at hcs hn hh hp ht
      subst hcs hn hh hp ht
      cases t1 <;> rfl

/-- C10 (witness): two batched engines differing only in `front` and
`blur_size` coincide on a concrete scene. -/
theorem c10_witness :
    FastPooling.forward (K := ℚ) ⟨1, 2, 128, 1, 0, false, Variant.occupancy⟩
        id [] [] [(0, 0), (1/2, 1/2)]
      = FastPooling.forward (K := ℚ) ⟨1, 2, 128, 1, 216, true, Variant.occupancy⟩
        id [] [] [(0, 0), (1/2, 1/2)] :=
  c10_forward_ignores_front_and_blur _ _ rfl rfl rfl rfl rfl id [] []
    [(0, 0), (1/2, 1/2)]

/-- C5: every degenerate geometry yields the all-zero descriptor of the
normal length, through the normal return paths (the modelled functions
are total, so no exception is possible): a lone ego with no neighbours
(also through the scene-level entry point), all neighbours carrying the
NaN sentinel, all neighbours out of range, and the batched engine on a
single-agent scene. -/
theorem c5_degenerate_all_zero (cfg : Config) (p : ℚ × ℚ) :
    (Pooling.occupancy (K := ℚ) cfg (some p) (some []) none = zerosD cfg
      ∧ Pooling.occupancies (K := ℚ) cfg [p] = [zerosD cfg])
    ∧ (∀ (oxys : List (Option (ℚ × ℚ))) (vals : Option (List (List ℚ))),
        (∀ q ∈ oxys, q = none) →
        Pooling.occupancy cfg (some p) (some oxys) vals = zerosD cfg)
    ∧ (∀ (others : List (ℚ × ℚ)) (vals : Option (List (List ℚ))),
        (∀ q ∈ others, ¬ inRangePre cfg (q.1 - p.1, q.2 - p.2)) →
        Pooling.occupancy cfg (some p) (some (others.map some)) vals = zerosD cfg)
    ∧ (∀ q : ℚ × ℚ, FastPooling.occupancies (K := ℚ) cfg [q] = [zerosD cfg]) := by
  refine ⟨⟨rfl, rfl⟩, ?_, ?_, fun q => rfl⟩
  · intro oxys vals hall
    by_cases h0 : oxys = []
    · subst h0; rfl
    · simp only [Pooling.occupancy]
      rw [if_neg h0]
      have hpairs : ((oxys.zip (vals.getD (List.replicate oxys.length [1]))).filterMap
          fun qv => qv.1.map fun q => (q, qv.2)) = [] := by
        rw [List.filterMap_eq_nil_iff]
        intro qv hqv
        rw [hall qv.1 (List.of_mem_zip hqv).1]
        rfl
      rw [hpairs]
      rfl
  · intro others vals hall
    by_cases h0 : others = []
    · subst h0; rfl
    · simp only [Pooling.occupancy]
      rw [if_neg (by simpa using h0), filterMap_zip_map_some]
      have hcells : Pooling.cellsOf cfg p
          (others.zip (vals.getD (List.replicate (others.map some).length [1]))) = [] := by
        unfold Pooling.cellsOf
        rw [List.filter_eq_nil_iff.mpr ?_, List.map_nil]
        intro ov hov
        rcases List.mem_map.mp hov with ⟨qv, hqv, rfl⟩
        simp only [decide_eq_true_eq]
        exact hall qv.1 (List.of_mem_zip hqv).1
      exact occCore_cells_nil cfg p _ hcells

unseal Rat.add Rat.mul Rat.inv Rat.sub in
/-- C5 (witness): concrete degenerate scenes on the 2-by-2 grid. -/
theorem c5_witness :
    Pooling.occupancy (K := ℚ) cfgA (some (0, 0)) (some [none]) none = zerosD cfgA
    ∧ Pooling.occupancy (K := ℚ) cfgA (some (0, 0))
        (some ([((10 : ℚ), (10 : ℚ))].map some)) none = zerosD cfgA :=
  ⟨(c5_degenerate_all_zero cfgA (0, 0)).2.1 [none] none (by decide),
   (c5_degenerate_all_zero cfgA (0, 0)).2.2.1 [(10, 10)] none (by decide)⟩

unseal Rat.add Rat.mul Rat.inv Rat.sub in
/-- C3 (code bug): in the batched engine an out-of-range neighbour is
zero-written into linear sub-cell 0 instead of being dropped.  With ego
`(0,0)`, in-range neighbour `(-1/2,-1/2)` occupying sub-cell `(0,0)` and
far-away neighbour `(10,10)`, the ego descriptor becomes all-zero,
whereas omitting the far neighbour leaves the occupied cell at 1; the
per-agent engine filters the far neighbour and is unaffected. -/
theorem c3_out_of_range_clobbers_cell_zero :
    FastPooling.occupancies (K := ℚ) cfgA [(0, 0), (-1/2, -1/2), (10, 10)]
        = [[0, 0, 0, 0], [0, 0, 0, 1], [0, 0, 0, 0]]
    ∧ FastPooling.occupancies (K := ℚ) cfgA [(0, 0), (-1/2, -1/2)]
        = [[1, 0, 0, 0], [0, 0, 0, 1]]
    ∧ Pooling.occupancies (K := ℚ) cfgA [(0, 0), (-1/2, -1/2), (10, 10)]
        = [[1, 0, 0, 0], [0, 0, 0, 1], [0, 0, 0, 0]] := by
  refine ⟨by decide, by decide, by decide⟩

unseal Rat.add Rat.mul Rat.inv Rat.sub in
/-- C1 (counterexample): with `blur_size = 3` the per-agent engine blurs
(each descriptor entry becomes 1/9) while the batched engine never
blurs (entry 1), so the two engines differ on a fully observed,
`front = False` scene, contradicting the claim for every
`blur_size >= 0`. -/
theorem c1_counterexample :
    Pooling.occupancies (K := ℚ) cfgB [(0, 0), (1/10, 1/5)]
      ≠ FastPooling.occupancies (K := ℚ) cfgB [(0, 0), (1/10, 1/5)] := by
  decide

/-- C1 (amended): with blur disabled and every neighbour of every agent
in range, the batched and per-agent engines produce exactly equal
descriptors for all three variants (exact equality over the rationals,
hence within any numerical tolerance). -/
theorem c1_engines_equivalent (cfg : Config) (hb : cfg.blur_size = 0)
    (obs : List (ℚ × ℚ)) (hne : obs ≠ [])
    (hin : ∀ i, i < obs.length → ∀ q ∈ obs.eraseIdx i,
      inRangePre cfg (q.1 - (obs.getD i (0, 0)).1, q.2 - (obs.getD i (0, 0)).2)) :
    (cfg.type_ = .occupancy →
      Pooling.occupancies cfg obs = FastPooling.occupancies cfg obs)
    ∧ (∀ obs1 : List (ℚ × ℚ), obs1.length = obs.length →
        Pooling.directional cfg obs1 obs = FastPooling.directional cfg obs1 obs)
    ∧ (∀ hidden : List (List ℚ), hidden.length = obs.length →
        Pooling.social cfg hidden obs = FastPooling.social cfg hidden obs) :=
  ⟨fun ht => occupancies_engines_eq cfg hb ht obs hne hin,
   fun obs1 h => directional_engines_eq cfg hb obs1 obs hne h hin,
   fun hidden h => social_engines_eq cfg hb hidden obs hne h hin⟩

unseal Rat.add Rat.mul Rat.inv Rat.sub in
/-- C1 (witness): the two engines agree on a concrete fully observed
in-range two-agent scene with blur disabled. -/
theorem c1_witness :
    Pooling.occupancies (K := ℚ) cfgA [(0, 0), (1/2, 1/2)]
      = FastPooling.occupancies (K := ℚ) cfgA [(0, 0), (1/2, 1/2)] :=
  (c1_engines_equivalent cfgA rfl [(0, 0), (1/2, 1/2)] (by decide) (by decide)).1
    rfl

unseal Rat.add Rat.mul Rat.inv Rat.sub in
/-- C6 (counterexample): with even `blur_size = 2` and `pool_size = 1`
the per-agent descriptor has length 4, not the claimed
`n * n * pooling_dim = 1`: the zero-padded blur enlarges the grid by one
sub-cell per axis and the pooling window no longer collapses it. -/
theorem c6_counterexample :
    (Pooling.occupancy (K := ℚ) cfgC (some (0, 0))
        (some [some (1/10, 1/5)]) none).length = 4
    ∧ cfgC.n * cfgC.n * cfgC.pooling_dim = 1 :=
  ⟨by decide, by decide⟩

/-- C6 (amended): for positive `n` and `pool_size`, and `blur_size`
zero, odd, or with `pool_size ≥ 2`, every per-agent descriptor has
length `n * n * pooling_dim` whatever the inputs, and on nonempty
scenes (at `N = 0` the source raises in both engines, via
`torch.stack` on an empty list and `reshape(0, -1, 2)`) both the
per-agent and the batched engine return one row of that length per
agent. -/
theorem c6_output_shape (cfg : Config) (hn : 0 < cfg.n) (hp : 0 < cfg.pool_size)
    (hblur : cfg.blur_size = 0 ∨ cfg.blur_size % 2 = 1 ∨ 2 ≤ cfg.pool_size) :
    (∀ (xy : Option (ℚ × ℚ)) (oxy : Option (List (Option (ℚ × ℚ))))
        (vals : Option (List (List ℚ))),
      (Pooling.occupancy cfg xy oxy vals).length = cfg.n * cfg.n * cfg.pooling_dim)
    ∧ (∀ obs : List (ℚ × ℚ), obs ≠ [] →
        (Pooling.occupancies cfg obs).length = obs.length)
    ∧ (∀ obs : List (ℚ × ℚ), obs ≠ [] →
        (FastPooling.occupancies cfg obs).length = obs.length
        ∧ ∀ row ∈ FastPooling.occupancies cfg obs,
            row.length = cfg.n * cfg.n * cfg.pooling_dim) := by
  refine ⟨?_, ?_, ?_⟩
  · intro xy oxy vals
    rcases xy with _ | p
    · rcases oxy with _ | oxys <;> exact zerosD_length (K := ℚ) cfg
    rcases oxy with _ | oxys
    · exact zerosD_length (K := ℚ) cfg
    simp only [Pooling.occupancy]
    by_cases h0 : oxys = []
    · rw [if_pos h0]
      exact zerosD_length (K := ℚ) cfg
    · rw [if_neg h0]
      exact occCore_length cfg hn hp hblur p _
  · intro obs _
    simp [Pooling.occupancies]
  · intro obs hne
    constructor
    · unfold FastPooling.occupancies FastPooling.occupancy
      by_cases h1 : obs.length = 1
      · rw [if_pos h1, h1]
        rfl
      · rw [if_neg h1]
        simp
    · intro row hrow
      unfold FastPooling.occupancies FastPooling.occupancy at hrow
      by_cases h1 : obs.length = 1
      · rw [if_pos h1] at hrow
        rcases List.mem_singleton.mp hrow with rfl
        exact zerosD_length cfg
      · rw [if_neg h1] at hrow
        rcases List.mem_map.mp hrow with ⟨i, _, rfl⟩
        unfold FastPooling.occRow
        exact occTail_length cfg 0 _ hn hp (Or.inl rfl)

/-- C6 (witness): concrete shapes on the 2-by-2 grid: a one-neighbour
descriptor has length `n * n * pooling_dim`, a two-agent scene yields
two rows, a single-agent batched scene yields one row. -/
theorem c6_witness :
    (Pooling.occupancy (K := ℚ) cfgA (some (0, 0))
        (some [some (5, 5)]) none).length = cfgA.n * cfgA.n * cfgA.pooling_dim
    ∧ (Pooling.occupancies (K := ℚ) cfgA [(0, 0), (1/2, 1/2)]).length
        = [((0 : ℚ), (0 : ℚ)), (1/2, 1/2)].length
    ∧ (FastPooling.occupancies (K := ℚ) cfgA [(0, 0)]).length
        = [((0 : ℚ), (0 : ℚ))].length :=
  ⟨(c6_output_shape cfgA (by decide) (by decide) (Or.inl rfl)).1 _ _ _,
   (c6_output_shape cfgA (by decide) (by decide) (Or.inl rfl)).2.1 _
     (by decide),
   ((c6_output_shape cfgA (by decide) (by decide) (Or.inl rfl)).2.2 _
      (by decide)).1⟩

/-- C8: in the per-agent engine, replacing neighbour `j` by the NaN
sentinel yields exactly the descriptor obtained by deleting that
neighbour (and its feature row) from the inputs, both for explicit
feature rows and for the defaulted all-ones features; the masked
neighbour contributes nothing and consumes no cell. -/
theorem c8_sentinel_equals_removal (cfg : Config) (p : ℚ × ℚ)
    (others : List (Option (ℚ × ℚ))) (vals : List (List ℚ)) (j : ℕ)
    (hj : j < others.length) (hlen : vals.length = others.length) :
    Pooling.occupancy cfg (some p) (some (others.set j none)) (some vals)
      = Pooling.occupancy cfg (some p) (some (others.eraseIdx j))
          (some (vals.eraseIdx j))
    ∧ Pooling.occupancy cfg (some p) (some (others.set j none)) none
      = Pooling.occupancy cfg (some p) (some (others.eraseIdx j)) none := by
  have hset_ne : others.set j none ≠ [] := by
    have h1 : 0 < (others.set j none).length := by
      rw [List.length_set]
      omega
    exact List.ne_nil_of_length_pos h1
  have main : ∀ w : List (List ℚ), w.length = others.length →
      Pooling.occupancy cfg (some p) (some (others.set j none)) (some w)
        = Pooling.occupancy cfg (some p) (some (others.eraseIdx j))
            (some (w.eraseIdx j)) := by
    intro w hw
    have hkey := filterMap_zip_set_none (K := ℚ) others w j hj hw
    simp only [Pooling.occupancy, Option.getD_some]
    rw [if_neg hset_ne]
    rw [hkey]
    by_cases h0 : others.eraseIdx j = []
    · rw [if_pos h0, h0]
      rfl
    · rw [if_neg h0]
  refine ⟨main vals hlen, ?_⟩
  rw [occupancy_default_vals, occupancy_default_vals]
  have hrep : (List.replicate others.length ([1] : List ℚ)).eraseIdx j
      = List.replicate (others.eraseIdx j).length [1] := by
    rw [eraseIdx_replicate _ _ _ hj, List.length_eraseIdx, if_pos hj]
  rw [List.length_set]
  rw [main (List.replicate others.length [1]) (by simp), hrep]

unseal Rat.add Rat.mul Rat.inv Rat.sub in
/-- C8 (witness): masking the second of two neighbours equals deleting
it, on a concrete scene. -/
theorem c8_witness :
    Pooling.occupancy (K := ℚ) cfgA (some (0, 0))
        (some ([some ((1 : ℚ)/2, (1 : ℚ)/2), some (9, 9)].set 1 none))
        (some [[5], [7]])
      = Pooling.occupancy (K := ℚ) cfgA (some (0, 0))
        (some ([some ((1 : ℚ)/2, (1 : ℚ)/2), some (9, 9)].eraseIdx 1))
        (some ([[(5 : ℚ)], [7]].eraseIdx 1)) :=
  (c8_sentinel_equals_removal cfgA (0, 0) [some (1/2, 1/2), some (9, 9)]
    [[5], [7]] 1 (by decide) (by decide)).1

unseal Rat.add Rat.mul Rat.inv Rat.sub in
/-- C4 (counterexample): ego `(0,0)` with in-range neighbours
`(-1/2,-1/2)` and `(-2/5,-2/5)` both mapped to sub-cell 0, followed by
the out-of-range neighbour `(10,10)`.  The claim says both engines store
the later in-range collider feature (1) in that cell; the batched
engine instead stores 0, because the out-of-range neighbour is
zero-written into sub-cell 0 after them (the per-agent engine does
store 1). -/
theorem c4_counterexample :
    FastPooling.occupancies (K := ℚ) cfgA
        [(0, 0), (-1/2, -1/2), (-2/5, -2/5), (10, 10)]
        = [[0, 0, 0, 0], [0, 0, 0, 1], [0, 0, 0, 1], [0, 0, 0, 0]]
    ∧ Pooling.occupancies (K := ℚ) cfgA
        [(0, 0), (-1/2, -1/2), (-2/5, -2/5), (10, 10)]
        = [[1, 0, 0, 0], [0, 0, 0, 1], [1, 0, 0, 1], [0, 0, 0, 0]] :=
  ⟨by decide, by decide⟩

/-- C4 (amended): last-write semantics.  If neighbours `k1 < k2` are
both in range and map to the same sub-cell `c`, and no later neighbour
writes `c` again, the scatter stage of the per-agent engine stores the
feature of `k2` (not the sum); the same holds for the batched engine
provided every later neighbour is in range (an out-of-range later
neighbour would zero-write sub-cell 0, see the C3 record). -/
theorem c4_last_write (cfg : Config) (p : ℚ × ℚ) (others : List (ℚ × ℚ))
    (vals : List (List ℚ)) (hlen : vals.length = others.length)
    (k1 k2 c : ℕ) (hk12 : k1 < k2) (hk2 : k2 < others.length)
    (h1r : inRangePre cfg
      ((others.getD k1 (0, 0)).1 - p.1, (others.getD k1 (0, 0)).2 - p.2))
    (h1c : linIdx cfg (cellPair cfg
      ((others.getD k1 (0, 0)).1 - p.1, (others.getD k1 (0, 0)).2 - p.2)) = c)
    (h2r : inRangePre cfg
      ((others.getD k2 (0, 0)).1 - p.1, (others.getD k2 (0, 0)).2 - p.2))
    (h2c : linIdx cfg (cellPair cfg
      ((others.getD k2 (0, 0)).1 - p.1, (others.getD k2 (0, 0)).2 - p.2)) = c)
    (hafter : ∀ k, k2 < k → k < others.length →
      inRangePre cfg ((others.getD k (0, 0)).1 - p.1,
        (others.getD k (0, 0)).2 - p.2) →
      linIdx cfg (cellPair cfg
        ((others.getD k (0, 0)).1 - p.1, (others.getD k (0, 0)).2 - p.2)) ≠ c) :
    scatter cfg.pooling_dim (Pooling.cellsOf cfg p (others.zip vals)) c
      = vals.getD k2 []
    ∧ ((∀ k, k2 < k → k < others.length →
          inRangePre cfg ((others.getD k (0, 0)).1 - p.1,
            (others.getD k (0, 0)).2 - p.2)) →
        scatter cfg.pooling_dim
          (FastPooling.cellsRow cfg
            (others.map fun q => (q.1 - p.1, q.2 - p.2)) vals) c
          = vals.getD k2 []) := by
  have hlzip : (others.zip vals).length = others.length := by
    rw [List.length_zip, hlen, min_self]
  have hk2l : k2 < (others.zip vals).length := by omega
  have hgetl : ∀ (k : ℕ) (hkl : k < (others.zip vals).length),
      (others.zip vals)[k] = (others.getD k (0, 0), vals.getD k []) := by
    intro k hkl
    have hko : k < others.length := by omega
    have hkv : k < vals.length := by omega
    rw [List.getElem_zip, getD_eq_getElem_of_lt others k (0, 0) hko,
      getD_eq_getElem_of_lt vals k [] hkv]
  have hdecomp : others.zip vals
      = (others.zip vals).take k2
        ++ (others.getD k2 (0, 0), vals.getD k2 [])
          :: (others.zip vals).drop (k2 + 1) := by
    conv_lhs => rw [← List.take_append_drop k2 (others.zip vals)]
    rw [List.drop_eq_getElem_cons hk2l, hgetl k2 hk2l]
  have htail : ∀ qv ∈ (others.zip vals).drop (k2 + 1), ∃ k, k2 < k ∧
      k < others.length ∧ qv = (others.getD k (0, 0), vals.getD k []) := by
    intro qv hqv
    rcases List.mem_iff_getElem.mp hqv with ⟨idx, hidx, hget⟩
    have hlen_drop : idx < (others.zip vals).length - (k2 + 1) := by
      simpa [List.length_drop] using hidx
    refine ⟨k2 + 1 + idx, by omega, by omega, ?_⟩
    rw [← hget, List.getElem_drop]
    exact hgetl (k2 + 1 + idx) (by omega)
  constructor
  · -- per-agent engine: range filter, then scatter
    have hcells : Pooling.cellsOf cfg p (others.zip vals)
        = Pooling.cellsOf cfg p ((others.zip vals).take k2)
          ++ (c, vals.getD k2 [])
            :: Pooling.cellsOf cfg p ((others.zip vals).drop (k2 + 1)) := by
      conv_lhs => rw [hdecomp]
      unfold Pooling.cellsOf
      simp only [List.map_append, List.map_cons, List.filter_append,
        List.filter_cons]
      rw [if_pos (decide_eq_true h2r)]
      simp only [List.map_append, List.map_cons]
      rw [h2c]
    rw [hcells]
    apply scatter_last_write
    intro e he
    unfold Pooling.cellsOf at he
    rcases List.mem_map.mp he with ⟨ov, hov, rfl⟩
    rcases List.mem_filter.mp hov with ⟨hov1, hovP⟩
    rcases List.mem_map.mp hov1 with ⟨qv, hqv, rfl⟩
    rcases htail qv hqv with ⟨k, hk, hkN, rfl⟩
    exact hafter k hk hkN (of_decide_eq_true hovP)
  · -- batched engine: in-place zeroing, then scatter
    intro hall
    have hrow : FastPooling.cellsRow cfg
        (others.map fun q => (q.1 - p.1, q.2 - p.2)) vals
        = (others.zip vals).map fun qv =>
            if inRangePre cfg (qv.1.1 - p.1, qv.1.2 - p.2) then
              (linIdx cfg (cellPair cfg (qv.1.1 - p.1, qv.1.2 - p.2)), qv.2)
            else (0, List.replicate qv.2.length 0) := by
      unfold FastPooling.cellsRow
      rw [List.zip_map_left, List.map_map]
      rfl
    rw [hrow]
    conv_lhs => rw [hdecomp]
    simp only [List.map_append, List.map_cons]
    rw [if_pos h2r, h2c]
    apply scatter_last_write
    intro e he
    rcases List.mem_map.mp he with ⟨qv, hqv, rfl⟩
    rcases htail qv hqv with ⟨k, hk, hkN, rfl⟩
    rw [if_pos (hall k hk hkN)]
    exact hafter k hk hkN (hall k hk hkN)

unseal Rat.add Rat.mul Rat.inv Rat.sub in
/-- C4 (witness): two in-range neighbours collide in sub-cell 0 with
features `[5]` then `[7]`; both scatter stages store `[7]`, the
later feature, not the sum `[12]`. -/
theorem c4_witness :
    scatter cfgA.pooling_dim
        (Pooling.cellsOf (K := ℚ) cfgA (0, 0)
          ([(-1/2, -1/2), (-2/5, -2/5)].zip [[5], [7]])) 0
      = [[(5 : ℚ)], [7]].getD 1 []
    ∧ scatter cfgA.pooling_dim
        (FastPooling.cellsRow (K := ℚ) cfgA
          ([(-1/2, -1/2), (-2/5, -2/5)].map fun q =>
            (q.1 - ((0 : ℚ), (0 : ℚ)).1, q.2 - ((0 : ℚ), (0 : ℚ)).2)) [[5], [7]]) 0
      = [[(5 : ℚ)], [7]].getD 1 [] := by
  have h := c4_last_write cfgA (0, 0) [(-1/2, -1/2), (-2/5, -2/5)] [[5], [7]]
    (by decide) 0 1 0 (by decide) (by decide) (by decide) (by decide) (by decide)
    (by decide) (by
      intro k hk hklen _
      simp only [List.length_cons, List.length_nil] at hklen
      omega)
  refine ⟨h.1, h.2 ?_⟩
  intro k hk hklen
  simp only [List.length_cons, List.length_nil] at hklen
  omega

/-- C2 (counterexample): in front mode the second axis receives no
half-grid shift: for offset `(-1/2, 1/2)` on the front configuration
the engine bins to cell `(0, 0)` while the claimed formula
`floor(o / (cell_side / pool_size) + n * pool_size / 2)` on both axes
gives `(0, 1)`. -/
theorem c2_counterexample :
    frontCellPair cfgG ((-1/2 : ℝ), 1/2) = (0, 0)
    ∧ specCellOf cfgG ((-1/2 : ℝ), 1/2) = (0, 1)
    ∧ ¬(((0 : ℤ), (0 : ℤ)) = ((0 : ℤ), (1 : ℤ))) := by
  refine ⟨?_, ?_, by decide⟩
  · unfold frontCellPair subCell subCellY
    rw [Prod.mk.injEq]
    constructor
    · norm_num [cfgG]
    · norm_num [cfgG]
  · unfold specCellOf
    rw [Prod.mk.injEq]
    constructor
    · norm_num [cfgG]
    · norm_num [cfgG]

/-- C2 (amended): the sub-cell binning contract.  In non-front mode
(shared by both engines, which call the same `cellPair`, `inRangePre`
and `linIdx`): the cell is `floor(o / (cell_side / pool_size) +
n * pool_size / 2)` per axis; the engine range test on the real-valued
coordinates holds iff both integer coordinates lie in
`[0, n * pool_size)`; and the linear index of an in-range cell is
`cell_x * (n * pool_size) + cell_y`.  In front mode (per-agent engine
only) the first axis is binned by the claimed formula but the second
axis receives NO half-grid shift. -/
theorem c2_binning_contract (cfg : Config) :
    (∀ o : ℚ × ℚ, cellPair cfg o = specCellOf cfg o)
    ∧ (∀ o : ℚ × ℚ, inRangePre cfg o ↔ specInR cfg (specCellOf cfg o))
    ∧ (∀ cp : ℤ × ℤ, specInR cfg cp → (linIdx cfg cp : ℤ) = specLin cfg cp)
    ∧ (∀ o : ℝ × ℝ, frontCellPair cfg o
        = ((specCellOf cfg o).1,
            ⌊o.2 / ((cfg.cell_side : ℝ) / (cfg.pool_size : ℝ))⌋)) := by
  refine ⟨fun o => rfl, fun o => ?_, fun cp hcp => ?_, fun o => rfl⟩
  · exact (floor_bounds_iff cfg (subCell cfg o.1) (subCell cfg o.2)).symm
  · obtain ⟨h1, h2, h3, h4⟩ := hcp
    unfold linIdx specLin
    push_cast [Int.toNat_of_nonneg h1, Int.toNat_of_nonneg h3]
    ring

/-- C2 (witness): the in-range integer cell `(1, 1)` of the 2-by-2
configuration has linear index `1 * 2 + 1 = 3` by both the engine
computation and the claimed formula. -/
theorem c2_witness :
    (linIdx cfgA ((1 : ℤ), (1 : ℤ)) : ℤ) = specLin cfgA (1, 1) :=
  (c2_binning_contract cfgA).2.2.1 (1, 1) (by decide)

/-- C7 (counterexample): ego at `(0,0)` previously at `(0,1)` moves
straight down, so `theta = pi/2 - atan2(-1, 0) = pi` and the rotation is
the negation map.  The engine writes the UNROTATED feature row `[0, 1]`
into the cell computed from the rotated offset, while the claim demands
the rotated feature `[0, -1]`. -/
theorem c7_counterexample :
    frontCT ((0 : ℝ), 0) (0, 1) = (-1, 0)
    ∧ Pooling.cellsOfFront cfgF (-1) 0 ((0 : ℝ), 0) [(((-1 : ℝ), 0), [0, 1])]
        = [(2, [0, 1])]
    ∧ rotPair (-1 : ℝ) 0 ((0 : ℝ), 1) = (0, -1)
    ∧ ¬([(0 : ℝ), 1] = [(0 : ℝ), -1]) := by
  have hpi : Real.pi / 2 - -(Real.pi / 2) = Real.pi := by ring
  have harc : arctan2 (0 - 1 : ℝ) (0 - 0 : ℝ) = -(Real.pi / 2) := by
    unfold arctan2
    norm_num
  refine ⟨?_, ?_, by norm_num [rotPair], by norm_num⟩
  · simp only [frontCT, harc, hpi]
    rw [Real.cos_pi, Real.sin_pi]
  · have hrot : rotPair (-1 : ℝ) 0 ((-1 : ℝ) - 0, (0 : ℝ) - 0) = (1, 0) := by
      norm_num [rotPair]
    have hsub : subCell (K := ℝ) cfgF 1 = 3/2 := by
      unfold subCell
      norm_num [cfgF]
    have hsuby : subCellY (K := ℝ) cfgF 0 = 0 := by
      unfold subCellY
      norm_num
    have hin : inRangePreF cfgF ((1 : ℝ), 0) := by
      unfold inRangePreF
      rw [hsub, hsuby]
      norm_num [cfgF, Config.s]
    have hfcp : frontCellPair cfgF ((1 : ℝ), 0) = (1, 0) := by
      unfold frontCellPair
      rw [hsub, hsuby, Prod.mk.injEq]
      constructor
      · norm_num
      · exact Int.floor_zero
    unfold Pooling.cellsOfFront
    simp only [List.map_cons, List.map_nil, hrot]
    rw [List.filter_cons, if_pos (decide_eq_true hin), List.filter_nil,
      List.map_cons, List.map_nil, hfcp]
    norm_num [linIdx, cfgF, Config.s]

/-- C7 (amended): in front mode the engine builds the rotation matrix
from `theta = pi/2 - atan2(dy, dx)` of the ego displacement and applies
it to the neighbour OFFSETS as row vectors before binning (first axis
shifted by `n * pool_size / 2`, second axis unshifted); the feature
rows are NOT rotated: the engine equals the specification-shaped
computation `occupancyFrontSpec`, which rotates offsets through the
explicit matrix and stores the features untouched. -/
theorem c7_front_rotation (cfg : Config) (xy : Option (ℝ × ℝ))
    (oxy : Option (List (Option (ℝ × ℝ)))) (vals : Option (List (List ℝ)))
    (past : ℝ × ℝ) :
    Pooling.occupancyFront cfg xy oxy vals past
      = occupancyFrontSpec cfg xy oxy vals past := by
  rcases xy with _ | p
  · rcases oxy with _ | oxys <;> rfl
  rcases oxy with _ | oxys
  · rfl
  simp only [Pooling.occupancyFront, occupancyFrontSpec]
  by_cases h0 : oxys = []
  · rw [if_pos h0, if_pos h0]
  · rw [if_neg h0, if_neg h0]
    by_cases h1 : ((oxys.zip (vals.getD (List.replicate oxys.length [1]))).filterMap
        fun qv => qv.1.map fun q => (q, qv.2)) = []
    · rw [if_pos h1, if_pos h1]
    · rw [if_neg h1, if_neg h1]
      unfold Pooling.occCoreFront
      rw [if_neg h1, frontCells_spec_eq]

end TrajNet
